import Mathlib

/-!
Verification of the record-tree bookkeeping and report export logic of the
vulnerability-inspection GUI shell (`app.py`).

The embedding models the state that `MainWindow` keeps about its record tree
(`QTreeWidget` contents, `date_roots`, `diag_seq_by_date`, the current
selection) and the handlers `_ensure_date_root`, `create_diagnosis_record`,
`_resolve_selected_diagnosis`, `create_action_record`, plus the pure text
rendering performed by `ReportDialog._save_as_txt`.

Python dictionaries are modelled as association lists in insertion order;
tree items are modelled by the fixed three-level shape date → diagnosis →
action that the two creation handlers produce (date items never receive a
`UserRole` payload, so `payloadAt` returns `none` for them, matching the
`isinstance(payload, dict)` checks in the source).
-/

/-- Result of `MainWindow._now()`: the three `strftime` projections of one
`datetime.now()` call.  `full` is derived, since
`"%Y-%m-%d %H:%M:%S"` is the date string, a space, and the time string. -/
structure Now where
  date : String
  time : String
deriving DecidableEq, Repr

/-- The `"%Y-%m-%d %H:%M:%S"` projection of `_now()`. -/
def Now.full (n : Now) : String := n.date ++ " " ++ n.time

/-- The `"kind"` entry of a payload dictionary; the handlers only ever store
`"diagnosis"` or `"action"`. -/
inductive Kind where
  | diagnosis
  | action
deriving DecidableEq, Repr

/-- String stored under the `"kind"` key. -/
def Kind.str : Kind → String
  | Kind.diagnosis => "diagnosis"
  | Kind.action => "action"

/-- A payload dictionary attached to a tree item via `setData(0, UserRole, ...)`.
`action_seq` is `some` exactly when the dictionary has an `"action_seq"` key
(diagnosis payloads are created with `"action_seq": 0`; action payloads have
no such key). -/
structure Payload where
  kind : Kind
  created_at_full : String
  created_time : String
  title : String
  text : String
  table : List (List String)
  action_seq : Option Nat
deriving DecidableEq, Repr

/-- A tree item holding an action payload (third level). -/
structure ActionItem where
  text : String
  payload : Payload
deriving DecidableEq, Repr

/-- A tree item holding a diagnosis payload (second level); its children are
the action items appended under it. -/
structure DiagItem where
  text : String
  payload : Payload
  children : List ActionItem
deriving DecidableEq, Repr

/-- A top-level date item; carries no payload, only its text and children. -/
structure DateItem where
  text : String
  children : List DiagItem
deriving DecidableEq, Repr

/-- Position of a tree item: top-level index, then child indices. -/
inductive NodeRef where
  | dateRef (d : Nat)
  | diagRef (d i : Nat)
  | actionRef (d i j : Nat)
deriving DecidableEq, Repr

/-- The record-keeping state of `MainWindow`: the tree's top-level items, the
`date_roots` dictionary (key → top-level index of the stored item), the
`diag_seq_by_date` dictionary, and the tree's current item. -/
structure MainWindow where
  record_tree : List DateItem
  date_roots : List (String × Nat)
  diag_seq_by_date : List (String × Nat)
  current : Option NodeRef
deriving DecidableEq, Repr

/-- State after `MainWindow.__init__`: empty tree, empty dictionaries,
no current item. -/
def initWindow : MainWindow :=
  { record_tree := [], date_roots := [], diag_seq_by_date := [], current := Option.none }

/-- Dictionary lookup (first, hence unique, binding of the key). -/
def alistGet (l : List (String × Nat)) (k : String) : Option Nat :=
  match l with
  | [] => Option.none
  | (k', v) :: rest => if k' = k then Option.some v else alistGet rest k

/-- Dictionary assignment `d[k] = v`: overwrite in place, or append a new
binding preserving insertion order. -/
def alistSet (l : List (String × Nat)) (k : String) (v : Nat) : List (String × Nat) :=
  match l with
  | [] => [(k, v)]
  | (k', v') :: rest => if k' = k then (k, v) :: rest else (k', v') :: alistSet rest k v

/-- Dictionary `d.setdefault(k, v)`: keep an existing binding, else append. -/
def alistSetdefault (l : List (String × Nat)) (k : String) (v : Nat) : List (String × Nat) :=
  match alistGet l k with
  | Option.some _ => l
  | Option.none => l ++ [(k, v)]

/-- Replace the `n`-th element of a list by `f` of it (in-place mutation of a
tree item's children). -/
def updNth (f : α → α) : List α → Nat → List α
  | [], _ => []
  | x :: xs, 0 => f x :: xs
  | x :: xs, n + 1 => x :: updNth f xs n

/-- Top-level tree item at index `d`. -/
def dateAt (w : MainWindow) (d : Nat) : Option DateItem :=
  w.record_tree.get? d

/-- Diagnosis item at position `(d, i)`. -/
def diagAt (w : MainWindow) (d i : Nat) : Option DiagItem :=
  (dateAt w d).bind (fun di => di.children.get? i)

/-- Action item at position `(d, i, j)`. -/
def actionAt (w : MainWindow) (d i j : Nat) : Option ActionItem :=
  (diagAt w d i).bind (fun dg => dg.children.get? j)

/-- `item.data(0, Qt.UserRole)`: date items were never given a payload, so the
lookup yields `none` for them (the `isinstance(payload, dict)` test fails). -/
def payloadAt (w : MainWindow) : NodeRef → Option Payload
  | NodeRef.dateRef _ => Option.none
  | NodeRef.diagRef d i => (diagAt w d i).map (fun dg => dg.payload)
  | NodeRef.actionRef d i j => (actionAt w d i j).map (fun a => a.payload)

/-- `item.parent()`: a top-level item has no parent. -/
def parentOf : NodeRef → Option NodeRef
  | NodeRef.dateRef _ => Option.none
  | NodeRef.diagRef d _ => Option.some (NodeRef.dateRef d)
  | NodeRef.actionRef d i _ => Option.some (NodeRef.diagRef d i)

/-- `MainWindow._resolve_selected_diagnosis`: take the current item; with no
current item or no payload dictionary return `none`; on a `"diagnosis"`
payload return the item itself; on an `"action"` payload return its parent
(if any). -/
def resolveSelectedDiagnosis (w : MainWindow) : Option NodeRef :=
  match w.current with
  | Option.none => Option.none
  | Option.some sel =>
    match payloadAt w sel with
    | Option.none => Option.none
    | Option.some p =>
      match p.kind with
      | Kind.diagnosis => Option.some sel
      | Kind.action => parentOf sel

/-- `MainWindow._ensure_date_root`: return the index of the existing top-level
item for `dateStr`, or append a fresh one, record it in `date_roots`, and
initialise its `diag_seq_by_date` entry to `0` via `setdefault`. -/
def ensureDateRoot (w : MainWindow) (dateStr : String) : MainWindow × Nat :=
  match alistGet w.date_roots dateStr with
  | Option.some idx => (w, idx)
  | Option.none =>
      let idx := w.record_tree.length
      ({ w with
          record_tree := w.record_tree ++ [{ text := dateStr, children := [] }],
          date_roots := w.date_roots ++ [(dateStr, idx)],
          diag_seq_by_date := alistSetdefault w.diag_seq_by_date dateStr 0 }, idx)

/-- The diagnosis item built by `create_diagnosis_record` for sequence
number `seq`: name `진단{seq}`, generated title, dummy text and table,
`"action_seq": 0`, no children yet. -/
def newDiagItem (now : Now) (seq : Nat) : DiagItem :=
  let diagName := "진단" ++ toString seq
  { text := diagName,
    payload :=
      { kind := Kind.diagnosis,
        created_at_full := Now.full now,
        created_time := now.time,
        title := now.date ++ " " ++ diagName ++ " 리포트",
        text := diagName ++ " 더미 점검 결과입니다.\n추후 실제 점검 로그/판정 결과가 표시됩니다.",
        table := [["대상", "서버-A", "더미"],
                  ["상태", "점검완료", "placeholder"],
                  ["요약", "취약점 점검 3건", "예시"]],
        action_seq := Option.some 0 },
    children := [] }

/-- `MainWindow.create_diagnosis_record`: ensure the date root, bump the
per-date counter, build the diagnosis payload with its generated title and
dummy content, append the new item as the date root's last child, and make it
the current item. -/
def createDiagnosisRecord (w : MainWindow) (now : Now) : MainWindow :=
  let pr := ensureDateRoot w now.date
  let w1 := pr.1
  let dIdx := pr.2
  let seq := (alistGet w1.diag_seq_by_date now.date).getD 0 + 1
  let w2 := { w1 with diag_seq_by_date := alistSet w1.diag_seq_by_date now.date seq }
  let newIdx := ((w2.record_tree.get? dIdx).map (fun di => di.children.length)).getD 0
  { w2 with
      record_tree :=
        updNth (fun di => { di with children := di.children ++ [newDiagItem now seq] })
          w2.record_tree dIdx,
      current := Option.some (NodeRef.diagRef dIdx newIdx) }

/-- Errors surfaced as message boxes by `create_action_record`. -/
inductive ActionError where
  | NoSelectionError
  | PayloadMissingError
deriving DecidableEq, Repr

/-- The `next_seq` computed by `create_action_record`:
`int(diag_payload.get("action_seq", 0)) + 1`. -/
def nextActionSeq (dg : DiagItem) : Nat :=
  dg.payload.action_seq.getD 0 + 1

/-- The action item built by `create_action_record` under diagnosis item
`dg`: name `조치{next_seq}`, payload titled with `diag_item.text(0)` (the
diagnosis item's display text), with dummy text and table. -/
def actionChild (dg : DiagItem) (now : Now) : ActionItem :=
  let actionName := "조치" ++ toString (nextActionSeq dg)
  { text := actionName,
    payload :=
      { kind := Kind.action,
        created_at_full := Now.full now,
        created_time := now.time,
        title := now.date ++ " " ++ dg.text ++ " - " ++ actionName ++ " 리포트",
        text := dg.text ++ "에 대한 " ++ actionName ++ " 더미 실행 결과입니다.",
        table := [["조치대상", dg.text, "더미"],
                  ["조치결과", "성공", "placeholder"],
                  ["비고", actionName, "예시"]],
        action_seq := Option.none } }

/-- The resolved diagnosis item after a successful `create_action_record`:
its payload's `"action_seq"` set to `next_seq` and the new action item
appended as its last child. -/
def diagAfterAction (dg : DiagItem) (now : Now) : DiagItem :=
  { dg with
      payload := { dg.payload with action_seq := Option.some (nextActionSeq dg) },
      children := dg.children ++ [actionChild dg now] }

/-- Body of the successful branch of `create_action_record`, given the
resolved diagnosis item `dg` at position `(d, i)`: replace it by
`diagAfterAction` and select the new child. -/
def performAction (w : MainWindow) (d i : Nat) (dg : DiagItem) (now : Now) : MainWindow :=
  { w with
      record_tree :=
        updNth (fun di => { di with
            children := updNth (fun _ => diagAfterAction dg now) di.children i })
          w.record_tree d,
      current := Option.some (NodeRef.actionRef d i dg.children.length) }

/-- `MainWindow.create_action_record`: resolve the selected diagnosis; with
none, warn ("선택 필요") and change nothing; when the resolved item lacks a
payload dictionary, warn ("오류") and change nothing; otherwise perform the
creation.  A resolved item that is not at the diagnosis level either carries
no payload dictionary (date items), or would require an action payload
stored with kind `"diagnosis"`, which the handlers never produce, so the
catch-all branch is unreachable from the initial state. -/
def createActionRecord (w : MainWindow) (now : Now) : Except ActionError MainWindow :=
  match resolveSelectedDiagnosis w with
  | Option.none => Except.error ActionError.NoSelectionError
  | Option.some (NodeRef.diagRef d i) =>
      match diagAt w d i with
      | Option.none => Except.error ActionError.PayloadMissingError
      | Option.some dg => Except.ok (performAction w d i dg now)
  | Option.some _ => Except.error ActionError.PayloadMissingError

/-- The user-triggered events that touch the record tree or read it:
the two creation buttons, a click on a tree item (which only changes the
current item and rewrites the log view), and the report dialog actions
(pure reads). -/
inductive Op where
  | startDiag (now : Now)
  | runAction (now : Now)
  | clickItem (r : Option NodeRef)
  | openReport
  | saveReport
deriving DecidableEq, Repr

/-- One event-loop step.  A failing `create_action_record` only shows a
message box: the window state is untouched. -/
def step (w : MainWindow) : Op → MainWindow
  | Op.startDiag now => createDiagnosisRecord w now
  | Op.runAction now =>
      match createActionRecord w now with
      | Except.ok w' => w'
      | Except.error _ => w
  | Op.clickItem r => { w with current := r }
  | Op.openReport => w
  | Op.saveReport => w

/-- A session: events processed strictly in order. -/
def run (w : MainWindow) (ops : List Op) : MainWindow :=
  ops.foldl step w

/-- One line of the `[표 데이터]` section in `ReportDialog._save_as_txt`:
`padded = list(row) + [""] * max(0, 3 - len(row))` followed by
`f"- {padded[0]} | {padded[1]} | {padded[2]}"`. -/
def tableLine (row : List String) : String :=
  let padded := row ++ List.replicate (3 - row.length) ""
  "- " ++ padded.getD 0 "" ++ " | " ++ padded.getD 1 "" ++ " | " ++ padded.getD 2 ""

/-- The `body` list built by `_save_as_txt`, in order. -/
def saveBody (p : Payload) : List String :=
  ["제목: " ++ p.title,
   "종류: " ++ Kind.str p.kind,
   "생성시각: " ++ p.created_at_full,
   "",
   "[요약]",
   p.text,
   "",
   "[표 데이터]"] ++ p.table.map tableLine

/-- The string written to the file: `"\n".join(body)`. -/
def savedText (p : Payload) : String :=
  String.intercalate "\n" (saveBody p)

/-- The bytes written: the text encoded as UTF-8 (`open(..., encoding="utf-8")`). -/
def savedBytes (p : Payload) : ByteArray :=
  String.toUTF8 (savedText p)

/-- The `default_name` offered by the save dialog:
`title.replace(" ", "_") + ".txt"`. -/
def defaultName (p : Payload) : String :=
  p.title.replace " " "_" ++ ".txt"

/-- Concrete timestamps used for witnesses and counterexamples. -/
def exNow1 : Now := { date := "2024-01-01", time := "10:00:00" }

/-- A later timestamp on a different calendar date. -/
def exNow2 : Now := { date := "2024-01-02", time := "09:30:00" }

/-! ### List and association-list lemmas -/

theorem get?_some_lt {l : List α} {n : Nat} {a : α} (h : l.get? n = Option.some a) :
    n < l.length := by
  induction l generalizing n with
  | nil => simp [List.get?] at h
  | cons x xs ih =>
    cases n with
    | zero => simp
    | succ m =>
      simp only [List.get?] at h
      have := ih h
      simp [List.length]
      omega

theorem get?_append_one (l : List α) (a : α) (n : Nat) :
    (l ++ [a]).get? n = if n = l.length then Option.some a else l.get? n := by
  induction l generalizing n with
  | nil =>
    cases n with
    | zero => simp [List.get?]
    | succ m => simp [List.get?]
  | cons x xs ih =>
    cases n with
    | zero => simp [List.get?]
    | succ m =>
      have hx : ((x :: xs) ++ [a]).get? (m + 1) = (xs ++ [a]).get? m := rfl
      have hy : (x :: xs).get? (m + 1) = xs.get? m := rfl
      rw [hx, hy, ih, List.length_cons]
      by_cases h : m = xs.length
      · simp [h]
      · rw [if_neg h, if_neg (by omega)]

theorem get?_append_right_add (l l' : List α) (n : Nat) :
    (l ++ l').get? (l.length + n) = l'.get? n := by
  induction l with
  | nil => simp [List.get?]
  | cons x xs ih => simpa [List.length_cons, Nat.succ_add, List.get?] using ih

theorem map_get? (f : α → β) (l : List α) (n : Nat) :
    (l.map f).get? n = (l.get? n).map f := by
  induction l generalizing n with
  | nil => simp [List.get?]
  | cons x xs ih =>
    cases n with
    | zero => simp [List.get?]
    | succ m => simp [List.get?, ih]

theorem updNth_length (f : α → α) (l : List α) (n : Nat) :
    (updNth f l n).length = l.length := by
  induction l generalizing n with
  | nil => simp [updNth]
  | cons x xs ih =>
    cases n with
    | zero => simp [updNth]
    | succ m => simp [updNth, ih]

theorem updNth_get? (f : α → α) (l : List α) (n m : Nat) :
    (updNth f l n).get? m = if m = n then (l.get? m).map f else l.get? m := by
  induction l generalizing n m with
  | nil => simp [updNth, List.get?]
  | cons x xs ih =>
    cases n with
    | zero =>
      cases m with
      | zero => simp [updNth, List.get?]
      | succ k => simp [updNth, List.get?]
    | succ n' =>
      cases m with
      | zero => simp [updNth, List.get?]
      | succ k =>
        simp only [updNth, List.get?, ih]
        by_cases h : k = n'
        · simp [h]
        · simp [h, fun hc => h (Nat.succ_injective hc)]

theorem alistGet_set_eq (l : List (String × Nat)) (k : String) (v : Nat) :
    alistGet (alistSet l k v) k = Option.some v := by
  induction l with
  | nil => simp [alistSet, alistGet]
  | cons p rest ih =>
    by_cases h : p.1 = k
    · simp [alistSet, alistGet, h]
    · simp [alistSet, alistGet, h, ih]

theorem alistGet_set_ne (l : List (String × Nat)) (k k' : String) (v : Nat)
    (h : k' ≠ k) :
    alistGet (alistSet l k v) k' = alistGet l k' := by
  have hk : k ≠ k' := Ne.symm h
  induction l with
  | nil => simp [alistSet, alistGet, hk]
  | cons p rest ih =>
    by_cases hp : p.1 = k
    · have hpk' : p.1 ≠ k' := by rw [hp]; exact hk
      simp [alistSet, alistGet, hp, hk, hpk']
    · simp only [alistSet, hp, if_false, alistGet]
      by_cases hk' : p.1 = k'
      · simp [hk']
      · simp [hk', ih]

theorem alistGet_append_one (l : List (String × Nat)) (k k' : String) (v : Nat) :
    alistGet (l ++ [(k, v)]) k' =
      match alistGet l k' with
      | Option.some x => Option.some x
      | Option.none => if k = k' then Option.some v else Option.none := by
  induction l with
  | nil => simp [alistGet]
  | cons p rest ih =>
    by_cases hp : p.1 = k'
    · simp [alistGet, hp]
    · simp [alistGet, hp, ih]

theorem alistGet_setdefault_getD (l : List (String × Nat)) (k : String) (v : Nat) :
    (alistGet (alistSetdefault l k v) k).getD v = (alistGet l k).getD v := by
  unfold alistSetdefault
  cases h : alistGet l k with
  | some x => simp [h]
  | none => simp [alistGet_append_one, h]

theorem alistGet_setdefault_isSome (l : List (String × Nat)) (k : String) (v : Nat) :
    (alistGet (alistSetdefault l k v) k).isSome = true := by
  unfold alistSetdefault
  cases h : alistGet l k with
  | some x => simp [h]
  | none => simp [alistGet_append_one, h]

theorem alistGet_setdefault_ne (l : List (String × Nat)) (k k' : String) (v : Nat)
    (h : k ≠ k') :
    alistGet (alistSetdefault l k v) k' = alistGet l k' := by
  unfold alistSetdefault
  cases hk : alistGet l k with
  | some x => rfl
  | none =>
    rw [alistGet_append_one]
    cases hk' : alistGet l k' with
    | some x => rfl
    | none => simp [h]

/-! ### How one step changes the two dictionaries -/

theorem diag_seq_startDiag (w : MainWindow) (now : Now) (d : String) :
    alistGet (createDiagnosisRecord w now).diag_seq_by_date d =
      if d = now.date then Option.some ((alistGet w.diag_seq_by_date d).getD 0 + 1)
      else alistGet w.diag_seq_by_date d := by
  simp only [createDiagnosisRecord, ensureDateRoot]
  cases hroot : alistGet w.date_roots now.date with
  | some idx =>
    by_cases hd : d = now.date
    · rw [if_pos hd, hd]
      simp [alistGet_set_eq]
    · rw [if_neg hd]
      simp [alistGet_set_ne _ _ _ _ hd]
  | none =>
    by_cases hd : d = now.date
    · rw [if_pos hd, hd]
      simp [alistGet_set_eq, alistGet_setdefault_getD]
    · rw [if_neg hd]
      simp [alistGet_set_ne _ _ _ _ hd,
            alistGet_setdefault_ne _ _ _ _ (fun hc => hd hc.symm)]

theorem performAction_diag_seq (w : MainWindow) (d i : Nat) (dg : DiagItem) (now : Now) :
    (performAction w d i dg now).diag_seq_by_date = w.diag_seq_by_date := rfl

theorem performAction_date_roots (w : MainWindow) (d i : Nat) (dg : DiagItem) (now : Now) :
    (performAction w d i dg now).date_roots = w.date_roots := rfl

theorem createActionRecord_ok_shape (w : MainWindow) (now : Now) (w' : MainWindow)
    (h : createActionRecord w now = Except.ok w') :
    ∃ d i dg, resolveSelectedDiagnosis w = Option.some (NodeRef.diagRef d i) ∧
      diagAt w d i = Option.some dg ∧ w' = performAction w d i dg now := by
  unfold createActionRecord at h
  split at h
  · exact Except.noConfusion h
  · rename_i d i hres
    split at h
    · exact Except.noConfusion h
    · rename_i dg hdg
      injection h with h2
      exact ⟨d, i, dg, hres, hdg, h2.symm⟩
  · exact Except.noConfusion h

theorem step_runAction_diag_seq (w : MainWindow) (now : Now) :
    (step w (Op.runAction now)).diag_seq_by_date = w.diag_seq_by_date := by
  simp only [step]
  cases h : createActionRecord w now with
  | error e => rfl
  | ok w' =>
    obtain ⟨d, i, dg, _, _, hw⟩ := createActionRecord_ok_shape w now w' h
    rw [hw]
    rfl

theorem step_runAction_date_roots (w : MainWindow) (now : Now) :
    (step w (Op.runAction now)).date_roots = w.date_roots := by
  simp only [step]
  cases h : createActionRecord w now with
  | error e => rfl
  | ok w' =>
    obtain ⟨d, i, dg, _, _, hw⟩ := createActionRecord_ok_shape w now w' h
    rw [hw]
    rfl

/-! ### Claim C1: per-date diagnosis sequence numbers -/

/-- The list `s, s + 1, ..., s + n - 1`. -/
def seqFrom : Nat → Nat → List Nat
  | _, 0 => []
  | s, n + 1 => s :: seqFrom (s + 1) n

/-- Number of `create diagnosis` events in a session whose timestamp date
is `d`. -/
def countStartDiag (d : String) : List Op → Nat
  | [] => 0
  | op :: rest =>
    (match op with
     | Op.startDiag now => if now.date = d then 1 else 0
     | _ => 0) + countStartDiag d rest

/-- The diagnosis sequence numbers assigned under date `d`, in creation
order, along a session starting at `w`: each hit records the
`seq = diag_seq_by_date.get(date_str, 0) + 1` value that
`create_diagnosis_record` computes. -/
def diagSeqsAssigned (d : String) : MainWindow → List Op → List Nat
  | _, [] => []
  | w, op :: rest =>
    (match op with
     | Op.startDiag now =>
         if now.date = d then [(alistGet w.diag_seq_by_date d).getD 0 + 1] else []
     | _ => []) ++ diagSeqsAssigned d (step w op) rest

theorem diagSeqsAssigned_shift (d : String) (ops : List Op) :
    ∀ w, diagSeqsAssigned d w ops
      = seqFrom ((alistGet w.diag_seq_by_date d).getD 0 + 1) (countStartDiag d ops) := by
  induction ops with
  | nil => intro w; rfl
  | cons op rest ih =>
    intro w
    cases op with
    | startDiag now =>
      by_cases hd : now.date = d
      · simp only [diagSeqsAssigned, countStartDiag, if_pos hd]
        rw [ih]
        have hc := diag_seq_startDiag w now d
        rw [if_pos hd.symm] at hc
        simp only [step, hc, Option.getD_some, Nat.add_comm 1 (countStartDiag d rest), seqFrom,
          List.singleton_append]
      · simp only [diagSeqsAssigned, countStartDiag, if_neg hd]
        rw [ih]
        have hc := diag_seq_startDiag w now d
        rw [if_neg (fun hc' => hd hc'.symm)] at hc
        simp only [step, hc, List.nil_append, Nat.zero_add]
    | runAction now =>
      simp only [diagSeqsAssigned, countStartDiag, List.nil_append, Nat.zero_add]
      rw [ih, step_runAction_diag_seq]
    | clickItem r =>
      simp only [diagSeqsAssigned, countStartDiag, List.nil_append, Nat.zero_add]
      rw [ih]
      rfl
    | openReport =>
      simp only [diagSeqsAssigned, countStartDiag, List.nil_append, Nat.zero_add]
      rw [ih]
      rfl
    | saveReport =>
      simp only [diagSeqsAssigned, countStartDiag, List.nil_append, Nat.zero_add]
      rw [ih]
      rfl

/-- Whether the visible tree has a top-level item for date `d`. -/
def hasDateRootItem (w : MainWindow) (d : String) : Bool :=
  w.record_tree.any (fun di => di.text == d)

/-- Whether an event is a `create diagnosis` dated `d`. -/
def opCreatesDate (op : Op) (d : String) : Bool :=
  match op with
  | Op.startDiag now => now.date == d
  | _ => false

/-- The `date_roots` dictionary has a key exactly when the tree has a
top-level item with that text. -/
def RootsSync (w : MainWindow) (d : String) : Prop :=
  (alistGet w.date_roots d).isSome = hasDateRootItem w d

theorem any_updNth (p : α → Bool) (f : α → α) (l : List α) (n : Nat)
    (h : ∀ x, p (f x) = p x) :
    (updNth f l n).any p = l.any p := by
  induction l generalizing n with
  | nil => rfl
  | cons x xs ih =>
    cases n with
    | zero => simp [updNth, List.any_cons, h]
    | succ m => simp [updNth, List.any_cons, ih]

theorem any_text_updChildren (d : String) (cf : DateItem → List DiagItem)
    (l : List DateItem) (n : Nat) :
    (updNth (fun di => { di with children := cf di }) l n).any (fun di => di.text == d)
      = l.any (fun di => di.text == d) :=
  any_updNth _ _ _ _ (fun _ => rfl)

theorem step_rootsSync (w : MainWindow) (op : Op) (hs : ∀ d', RootsSync w d') (d : String) :
    RootsSync (step w op) d ∧
    hasDateRootItem (step w op) d = (hasDateRootItem w d || opCreatesDate op d) := by
  cases op with
  | startDiag now =>
    simp only [step, createDiagnosisRecord, ensureDateRoot]
    cases hroot : alistGet w.date_roots now.date with
    | some idx =>
      simp only [RootsSync, hasDateRootItem]
      rw [any_text_updChildren]
      refine ⟨hs d, ?_⟩
      by_cases hd : now.date = d
      · have hT : w.record_tree.any (fun di => di.text == d) = true := by
          have hsd := hs d
          simp only [RootsSync, hasDateRootItem] at hsd
          rw [← hsd, ← hd, hroot]
          rfl
        simp [opCreatesDate, hT]
      · simp [opCreatesDate, hd]
    | none =>
      have hlen : ∀ (a : DateItem) (l : List DateItem) (g : DateItem → DateItem),
          (updNth g (l ++ [a]) l.length).any (fun di => di.text == d)
            = (l.any (fun di => di.text == d) || ((g a).text == d)) := by
        intro a l g
        induction l with
        | nil => simp [updNth, List.any_cons]
        | cons x xs ihl => simp [updNth, List.any_cons, ihl, Bool.or_assoc]
      constructor
      · simp only [RootsSync, hasDateRootItem]
        rw [alistGet_append_one]
        cases hd : alistGet w.date_roots d with
        | some x =>
          have : hasDateRootItem w d = true := by rw [← hs d, hd]; rfl
          simp only [hasDateRootItem] at this
          simp [hlen, this]
        | none =>
          have : hasDateRootItem w d = false := by rw [← hs d, hd]; rfl
          simp only [hasDateRootItem] at this
          by_cases hnd : now.date = d
          · simp [hlen, this, hnd]
          · simp [hlen, this, hnd]
      · simp only [hasDateRootItem, opCreatesDate]
        simp [hlen]
  | runAction now =>
    have htree : (step w (Op.runAction now)).record_tree.any (fun di => di.text == d)
        = w.record_tree.any (fun di => di.text == d) := by
      simp only [step]
      cases h : createActionRecord w now with
      | error e => rfl
      | ok w' =>
        obtain ⟨d0, i0, dg, _, _, hw⟩ := createActionRecord_ok_shape w now w' h
        rw [hw]
        exact any_text_updChildren d _ w.record_tree d0
    refine ⟨?_, ?_⟩
    · simp only [RootsSync, hasDateRootItem]
      rw [htree, step_runAction_date_roots]
      exact hs d
    · simp only [hasDateRootItem, opCreatesDate]
      rw [htree]
      simp
  | clickItem r => exact ⟨hs d, by simp [hasDateRootItem, opCreatesDate, step]⟩
  | openReport => exact ⟨hs d, by simp [hasDateRootItem, opCreatesDate, step]⟩
  | saveReport => exact ⟨hs d, by simp [hasDateRootItem, opCreatesDate, step]⟩

theorem run_rootsSync (ops : List Op) :
    ∀ w, (∀ d', RootsSync w d') →
      (∀ d', RootsSync (run w ops) d') ∧
      ∀ d, hasDateRootItem (run w ops) d
        = (hasDateRootItem w d || ops.any (fun op => opCreatesDate op d)) := by
  induction ops with
  | nil => intro w hs; exact ⟨hs, fun d => by simp [run]⟩
  | cons op rest ih =>
    intro w hs
    have hstep := fun d => step_rootsSync w op hs d
    have hrest := ih (step w op) (fun d' => (hstep d').1)
    refine ⟨hrest.1, fun d => ?_⟩
    have : run w (op :: rest) = run (step w op) rest := rfl
    rw [this, hrest.2 d, (hstep d).2]
    simp [List.any_cons, Bool.or_assoc, Bool.or_comm (opCreatesDate op d)]

theorem countStartDiag_pos_iff (d : String) (ops : List Op) :
    0 < countStartDiag d ops ↔ ops.any (fun op => opCreatesDate op d) = true := by
  induction ops with
  | nil => simp [countStartDiag]
  | cons op rest ih =>
    cases op with
    | startDiag now =>
      by_cases hd : now.date = d
      · simp [countStartDiag, opCreatesDate, List.any_cons, hd]
      · simp [countStartDiag, opCreatesDate, List.any_cons, hd, ih]
    | runAction now => simpa [countStartDiag, opCreatesDate, List.any_cons] using ih
    | clickItem r => simpa [countStartDiag, opCreatesDate, List.any_cons] using ih
    | openReport => simpa [countStartDiag, opCreatesDate, List.any_cons] using ih
    | saveReport => simpa [countStartDiag, opCreatesDate, List.any_cons] using ih

/-- C1: for every date string `d`, the diagnosis sequence numbers assigned
under `d`'s date group during any session are exactly `1..N` in creation
order, where `N` is the number of `create diagnosis` events dated `d`; and
the top-level date item for `d` exists exactly when at least one such event
occurred (lazy creation on the first call). -/
theorem c1_diagnosis_seq_numbers (ops : List Op) (d : String) :
    diagSeqsAssigned d initWindow ops = seqFrom 1 (countStartDiag d ops) ∧
    hasDateRootItem (run initWindow ops) d = decide (0 < countStartDiag d ops) := by
  constructor
  · have h := diagSeqsAssigned_shift d ops initWindow
    simpa [initWindow, alistGet] using h
  · have hs : ∀ d', RootsSync initWindow d' := fun d' => rfl
    have h2 := (run_rootsSync ops initWindow hs).2 d
    rw [h2]
    have hinit : hasDateRootItem initWindow d = false := rfl
    rw [hinit]
    cases hb : ops.any (fun op => opCreatesDate op d) with
    | true =>
      have := (countStartDiag_pos_iff d ops).mpr hb
      simp [this]
    | false =>
      have : ¬ 0 < countStartDiag d ops := fun hpos =>
        by rw [(countStartDiag_pos_iff d ops).mp hpos] at hb; exact Bool.noConfusion hb
      simp [this]

/-! ### Claim C2: per-diagnosis action sequence numbers -/

/-- The diagnosis payload's `"action_seq"` counter at position `(d, i)`,
read with the same `get("action_seq", 0)` default as the source. -/
def actionCounterAt (w : MainWindow) (d i : Nat) : Nat :=
  ((diagAt w d i).bind (fun dg => dg.payload.action_seq)).getD 0

theorem diagAt_elim {w : MainWindow} {d i : Nat} {dg : DiagItem}
    (h : diagAt w d i = Option.some dg) :
    ∃ di, w.record_tree.get? d = Option.some di ∧ di.children.get? i = Option.some dg := by
  unfold diagAt dateAt at h
  cases hdi : w.record_tree.get? d with
  | none => rw [hdi] at h; exact Option.noConfusion h
  | some di => rw [hdi] at h; exact ⟨di, rfl, h⟩

theorem diagAt_performAction (w : MainWindow) (d0 i0 : Nat) (dg : DiagItem) (now : Now)
    (hdg : diagAt w d0 i0 = Option.some dg) (d i : Nat) :
    diagAt (performAction w d0 i0 dg now) d i =
      if d = d0 ∧ i = i0 then Option.some (diagAfterAction dg now) else diagAt w d i := by
  obtain ⟨di0, hdi0, hc0⟩ := diagAt_elim hdg
  simp only [performAction, diagAt, dateAt]
  rw [updNth_get?]
  by_cases hd : d = d0
  · rw [if_pos hd, hd, hdi0]
    simp only [Option.map_some', Option.some_bind]
    rw [updNth_get?]
    by_cases hi : i = i0
    · rw [if_pos hi, hi, hc0]
      simp only [Option.map_some', hd, hi, and_self, if_true]
    · rw [if_neg hi]
      simp only [hi, and_false, if_false]
  · rw [if_neg hd]
    simp [hd]

theorem resolve_diagRef_isSome (w : MainWindow) (d i : Nat)
    (h : resolveSelectedDiagnosis w = Option.some (NodeRef.diagRef d i)) :
    ∃ dg, diagAt w d i = Option.some dg := by
  unfold resolveSelectedDiagnosis at h
  split at h
  · exact Option.noConfusion h
  · rename_i sel hcur
    split at h
    · exact Option.noConfusion h
    · rename_i p hp
      split at h
      · injection h with h
        subst h
        simp only [payloadAt] at hp
        cases hdg : diagAt w d i with
        | none => rw [hdg] at hp; exact Option.noConfusion hp
        | some dg => exact ⟨dg, rfl⟩
      · cases sel with
        | dateRef d' => exact Option.noConfusion h
        | diagRef d' i' =>
          simp only [parentOf] at h
          injection h with h
          exact NodeRef.noConfusion h
        | actionRef d' i' j' =>
          simp only [parentOf] at h
          injection h with h
          injection h with h1 h2
          simp only [payloadAt, actionAt] at hp
          rw [h1, h2] at hp
          cases hdg : diagAt w d i with
          | none => rw [hdg] at hp; exact Option.noConfusion hp
          | some dg => exact ⟨dg, rfl⟩

theorem actionCounter_startDiag (w : MainWindow) (now : Now) (d i : Nat) :
    actionCounterAt (createDiagnosisRecord w now) d i = actionCounterAt w d i := by
  simp only [actionCounterAt, createDiagnosisRecord, ensureDateRoot]
  cases hroot : alistGet w.date_roots now.date with
  | some idx =>
    simp only [diagAt, dateAt]
    rw [updNth_get?]
    by_cases hd : d = idx
    · rw [if_pos hd, hd]
      cases hdi : w.record_tree.get? idx with
      | none => rfl
      | some di =>
        simp only [Option.map_some', Option.some_bind]
        rw [get?_append_one]
        by_cases hi : i = di.children.length
        · rw [if_pos hi, hi]
          cases hci : di.children.get? di.children.length with
          | none => rfl
          | some x => exact absurd (get?_some_lt hci) (Nat.lt_irrefl _)
        · rw [if_neg hi]
    · rw [if_neg hd]
  | none =>
    simp only [diagAt, dateAt]
    rw [updNth_get?]
    by_cases hd : d = w.record_tree.length
    · rw [if_pos hd, hd, get?_append_one, if_pos rfl]
      simp only [Option.map_some', Option.some_bind]
      cases hdi : w.record_tree.get? w.record_tree.length with
      | none =>
        cases i with
        | zero => rfl
        | succ m => rfl
      | some x => exact absurd (get?_some_lt hdi) (Nat.lt_irrefl _)
    · rw [if_neg hd, get?_append_one, if_neg hd]

theorem actionCounter_runAction_hit (w : MainWindow) (now : Now) (d i : Nat)
    (h : resolveSelectedDiagnosis w = Option.some (NodeRef.diagRef d i)) :
    actionCounterAt (step w (Op.runAction now)) d i = actionCounterAt w d i + 1 := by
  obtain ⟨dg, hdg⟩ := resolve_diagRef_isSome w d i h
  have hstep : step w (Op.runAction now) = performAction w d i dg now := by
    simp only [step, createActionRecord, h, hdg]
  rw [hstep]
  simp only [actionCounterAt]
  rw [diagAt_performAction w d i dg now hdg d i, if_pos ⟨rfl, rfl⟩, hdg]
  simp [diagAfterAction, nextActionSeq]

theorem actionCounter_runAction_miss (w : MainWindow) (now : Now) (d i : Nat)
    (h : resolveSelectedDiagnosis w ≠ Option.some (NodeRef.diagRef d i)) :
    actionCounterAt (step w (Op.runAction now)) d i = actionCounterAt w d i := by
  simp only [step]
  cases hact : createActionRecord w now with
  | error e => rfl
  | ok w' =>
    obtain ⟨d0, i0, dg, hres, hdg, hw⟩ := createActionRecord_ok_shape w now w' hact
    rw [hw]
    simp only [actionCounterAt]
    rw [diagAt_performAction w d0 i0 dg now hdg d i]
    have hne : ¬(d = d0 ∧ i = i0) := by
      rintro ⟨rfl, rfl⟩
      exact h hres
    rw [if_neg hne]

/-- The action sequence numbers assigned under the diagnosis at `(d, i)`,
in creation order, along a session starting at `w`: each hit is a
`create action` event whose scope resolution yields that diagnosis (such an
event always succeeds), and it records the `next_seq = action_seq + 1` value
the handler computes. -/
def actionSeqsAssigned (d i : Nat) : MainWindow → List Op → List Nat
  | _, [] => []
  | w, op :: rest =>
    (match op with
     | Op.runAction _ =>
         if resolveSelectedDiagnosis w = Option.some (NodeRef.diagRef d i)
         then [actionCounterAt w d i + 1] else []
     | _ => []) ++ actionSeqsAssigned d i (step w op) rest

/-- `M`: the number of `create action` events of a session that resolve to
the diagnosis at `(d, i)`. -/
def countActionHits (d i : Nat) : MainWindow → List Op → Nat
  | _, [] => 0
  | w, op :: rest =>
    (match op with
     | Op.runAction _ =>
         if resolveSelectedDiagnosis w = Option.some (NodeRef.diagRef d i)
         then 1 else 0
     | _ => 0) + countActionHits d i (step w op) rest

theorem actionSeqsAssigned_shift (d i : Nat) (ops : List Op) :
    ∀ w, actionSeqsAssigned d i w ops
      = seqFrom (actionCounterAt w d i + 1) (countActionHits d i w ops) := by
  induction ops with
  | nil => intro w; rfl
  | cons op rest ih =>
    intro w
    cases op with
    | startDiag now =>
      simp only [actionSeqsAssigned, countActionHits, List.nil_append, Nat.zero_add]
      rw [ih]
      simp only [step]
      rw [actionCounter_startDiag]
    | runAction now =>
      by_cases hres : resolveSelectedDiagnosis w = Option.some (NodeRef.diagRef d i)
      · simp only [actionSeqsAssigned, countActionHits, if_pos hres, List.singleton_append,
          Nat.add_comm 1 (countActionHits d i (step w (Op.runAction now)) rest), seqFrom]
        rw [ih, actionCounter_runAction_hit w now d i hres]
      · simp only [actionSeqsAssigned, countActionHits, if_neg hres, List.nil_append,
          Nat.zero_add]
        rw [ih, actionCounter_runAction_miss w now d i hres]
    | clickItem r =>
      simp only [actionSeqsAssigned, countActionHits, List.nil_append, Nat.zero_add]
      rw [ih]
      rfl
    | openReport =>
      simp only [actionSeqsAssigned, countActionHits, List.nil_append, Nat.zero_add]
      rw [ih]
      rfl
    | saveReport =>
      simp only [actionSeqsAssigned, countActionHits, List.nil_append, Nat.zero_add]
      rw [ih]
      rfl

/-- C2: along any session, the action sequence numbers assigned under the
diagnosis at position `(d, i)` are exactly `1..M` in creation order, where
`M` is the number of successful `create action` events resolving to that
diagnosis; a `create diagnosis` event never changes the diagnosis's action
counter, and neither does a `create action` event resolving elsewhere. -/
theorem c2_action_seq_numbers (ops : List Op) (d i : Nat) :
    actionSeqsAssigned d i initWindow ops = seqFrom 1 (countActionHits d i initWindow ops) ∧
    (∀ (w : MainWindow) (now : Now),
        actionCounterAt (step w (Op.startDiag now)) d i = actionCounterAt w d i) ∧
    (∀ (w : MainWindow) (now : Now),
        resolveSelectedDiagnosis w ≠ Option.some (NodeRef.diagRef d i) →
        actionCounterAt (step w (Op.runAction now)) d i = actionCounterAt w d i) := by
  refine ⟨?_, ?_, ?_⟩
  · have h := actionSeqsAssigned_shift d i ops initWindow
    have h0 : actionCounterAt initWindow d i = 0 := rfl
    rw [h0] at h
    exact h
  · intro w now
    exact actionCounter_startDiag w now d i
  · intro w now hne
    exact actionCounter_runAction_miss w now d i hne

/-- Witness for C2 at a concrete input: a `create action` event resolving to
a different diagnosis position leaves the counter at `(0, 0)` unchanged. -/
theorem c2_action_seq_numbers_witness :
    actionCounterAt (step initWindow (Op.runAction exNow1)) 0 0
      = actionCounterAt initWindow 0 0 :=
  (c2_action_seq_numbers [] 0 0).2.2 initWindow exNow1 (by decide)

/-! ### The shape invariant of reachable states -/

/-- What the two creation handlers guarantee about every reachable state:
`date_roots` and the top-level items are in bijection, the per-date counter
equals the number of diagnosis children of the date root, and every
diagnosis/action item has the generated name, kind, title and counter that
its creation event gave it. -/
structure TreeInv (w : MainWindow) : Prop where
  roots_idx : ∀ d idx, alistGet w.date_roots d = Option.some idx →
    ∃ di, w.record_tree.get? idx = Option.some di ∧ di.text = d
  idx_roots : ∀ idx di, w.record_tree.get? idx = Option.some di →
    alistGet w.date_roots di.text = Option.some idx
  seq_roots : ∀ d, (alistGet w.diag_seq_by_date d).isSome = true →
    (alistGet w.date_roots d).isSome = true
  seq_sync : ∀ idx di, w.record_tree.get? idx = Option.some di →
    alistGet w.diag_seq_by_date di.text = Option.some di.children.length
  diag_ok : ∀ idx di i dg, w.record_tree.get? idx = Option.some di →
    di.children.get? i = Option.some dg →
    dg.text = "진단" ++ toString (i + 1) ∧
    dg.payload.kind = Kind.diagnosis ∧
    dg.payload.title = di.text ++ " " ++ dg.text ++ " 리포트" ∧
    dg.payload.action_seq = Option.some dg.children.length
  action_ok : ∀ idx di i dg j a, w.record_tree.get? idx = Option.some di →
    di.children.get? i = Option.some dg → dg.children.get? j = Option.some a →
    a.text = "조치" ++ toString (j + 1) ∧
    a.payload.kind = Kind.action ∧
    ∃ ds ts, a.payload.created_at_full = ds ++ " " ++ ts ∧
      a.payload.title = ds ++ " " ++ dg.text ++ " - " ++ a.text ++ " 리포트"

theorem inv_init : TreeInv initWindow := by
  refine ⟨?_, ?_, ?_, ?_, ?_, ?_⟩
  · intro d idx h; exact Option.noConfusion h
  · intro idx di h; exact Option.noConfusion h
  · intro d h; exact Bool.noConfusion h
  · intro idx di h; exact Option.noConfusion h
  · intro idx di i dg h; exact Option.noConfusion h
  · intro idx di i dg j a h; exact Option.noConfusion h

theorem inv_startDiag (w : MainWindow) (now : Now) (hinv : TreeInv w) :
    TreeInv (createDiagnosisRecord w now) := by
  simp only [createDiagnosisRecord, ensureDateRoot]
  cases hroot : alistGet w.date_roots now.date with
  | some idx =>
    dsimp only
    obtain ⟨di, hdi, hditext⟩ := hinv.roots_idx now.date idx hroot
    have hseq : alistGet w.diag_seq_by_date now.date
        = Option.some di.children.length := by
      rw [← hditext]; exact hinv.seq_sync idx di hdi
    have hseqv : (alistGet w.diag_seq_by_date now.date).getD 0 + 1
        = di.children.length + 1 := by rw [hseq]; rfl
    refine ⟨?_, ?_, ?_, ?_, ?_, ?_⟩
    · intro d idx' h
      obtain ⟨di', hdi', htext'⟩ := hinv.roots_idx d idx' h
      by_cases hii : idx' = idx
      · refine ⟨_, by rw [updNth_get?, if_pos hii, hii, hdi]; rfl, ?_⟩
        rw [hii] at hdi'
        rw [hdi] at hdi'
        injection hdi' with hdi'
        rw [← hdi'] at htext'
        exact htext'
      · exact ⟨di', by rw [updNth_get?, if_neg hii]; exact hdi', htext'⟩
    · intro idx' di'' h
      rw [updNth_get?] at h
      by_cases hii : idx' = idx
      · rw [if_pos hii, hii, hdi] at h
        injection h with h
        rw [← h]
        rw [hii]
        exact hinv.idx_roots idx di hdi
      · rw [if_neg hii] at h
        exact hinv.idx_roots idx' di'' h
    · intro d hsome
      by_cases hd : d = now.date
      · rw [hd, hroot]; rfl
      · rw [alistGet_set_ne _ _ _ _ hd] at hsome
        exact hinv.seq_roots d hsome
    · intro idx' di'' h
      rw [updNth_get?] at h
      by_cases hii : idx' = idx
      · rw [if_pos hii, hii, hdi] at h
        injection h with h
        rw [← h]
        have : di.text = now.date := hditext
        simp only [this]
        rw [alistGet_set_eq]
        simp only [List.length_append, List.length_cons, List.length_nil]
        rw [hseqv]
      · rw [if_neg hii] at h
        have hne : di''.text ≠ now.date := by
          intro hc
          have := hinv.idx_roots idx' di'' h
          rw [hc, hroot] at this
          injection this with this
          exact hii this.symm
        rw [alistGet_set_ne _ _ _ _ hne]
        exact hinv.seq_sync idx' di'' h
    · intro idx' di'' i dg h hc
      rw [updNth_get?] at h
      by_cases hii : idx' = idx
      · rw [if_pos hii, hii, hdi] at h
        injection h with h
        rw [← h] at hc
        simp only at hc
        rw [get?_append_one] at hc
        by_cases hlen : i = di.children.length
        · rw [if_pos hlen] at hc
          injection hc with hc
          rw [← h, ← hc]
          refine ⟨?_, rfl, ?_, rfl⟩
          · simp only [newDiagItem]
            rw [hseqv, hlen]
          · simp only [newDiagItem]
            rw [hditext]
        · rw [if_neg hlen] at hc
          have hold := hinv.diag_ok idx di i dg hdi hc
          rw [← h]
          exact hold
      · rw [if_neg hii] at h
        exact hinv.diag_ok idx' di'' i dg h hc
    · intro idx' di'' i dg j a h hc hc2
      rw [updNth_get?] at h
      by_cases hii : idx' = idx
      · rw [if_pos hii, hii, hdi] at h
        injection h with h
        rw [← h] at hc
        simp only at hc
        rw [get?_append_one] at hc
        by_cases hlen : i = di.children.length
        · rw [if_pos hlen] at hc
          injection hc with hc
          rw [← hc] at hc2
          simp only [newDiagItem] at hc2
          exact Option.noConfusion hc2
        · rw [if_neg hlen] at hc
          exact hinv.action_ok idx di i dg j a hdi hc hc2
      · rw [if_neg hii] at h
        exact hinv.action_ok idx' di'' i dg j a h hc hc2
  | none =>
    dsimp only
    have hseqnone : alistGet w.diag_seq_by_date now.date = Option.none := by
      cases hsq : alistGet w.diag_seq_by_date now.date with
      | none => rfl
      | some v =>
        have := hinv.seq_roots now.date (by rw [hsq]; rfl)
        rw [hroot] at this
        exact Bool.noConfusion this
    have hseqv : (alistGet (alistSetdefault w.diag_seq_by_date now.date 0)
        now.date).getD 0 + 1 = 1 := by
      rw [alistGet_setdefault_getD, hseqnone]
      rfl
    have htreelen : w.record_tree.get? w.record_tree.length = Option.none := by
      cases hx : w.record_tree.get? w.record_tree.length with
      | none => rfl
      | some x => exact absurd (get?_some_lt hx) (Nat.lt_irrefl _)
    refine ⟨?_, ?_, ?_, ?_, ?_, ?_⟩
    · intro d idx' h
      rw [alistGet_append_one] at h
      cases hold : alistGet w.date_roots d with
      | some x =>
        rw [hold] at h
        injection h with h
        obtain ⟨di', hdi', htext'⟩ := hinv.roots_idx d x hold
        have hlt : x < w.record_tree.length := get?_some_lt hdi'
        refine ⟨di', ?_, htext'⟩
        rw [updNth_get?, if_neg (by rw [← h]; omega), ← h, get?_append_one,
          if_neg (by omega)]
        exact hdi'
      | none =>
        rw [hold] at h
        by_cases hd : now.date = d
        · rw [if_pos hd] at h
          injection h with h
          refine ⟨_, by rw [updNth_get?, if_pos h.symm, ← h, get?_append_one, if_pos rfl]; rfl, ?_⟩
          simp only [hd]
        · rw [if_neg hd] at h
          exact Option.noConfusion h
    · intro idx' di'' h
      rw [updNth_get?] at h
      by_cases hii : idx' = w.record_tree.length
      · rw [if_pos hii, hii, get?_append_one, if_pos rfl] at h
        injection h with h
        rw [← h]
        simp only
        rw [alistGet_append_one, hroot, if_pos rfl, hii]
      · rw [if_neg hii, get?_append_one, if_neg hii] at h
        have := hinv.idx_roots idx' di'' h
        rw [alistGet_append_one, this]
    · intro d hsome
      by_cases hd : d = now.date
      · rw [hd, alistGet_append_one, hroot, if_pos rfl]; rfl
      · rw [alistGet_set_ne _ _ _ _ hd,
          alistGet_setdefault_ne _ _ _ _ (fun hc => hd hc.symm)] at hsome
        have := hinv.seq_roots d hsome
        rw [alistGet_append_one]
        cases hx : alistGet w.date_roots d with
        | some v => rfl
        | none => rw [hx] at this; exact Bool.noConfusion this
    · intro idx' di'' h
      rw [updNth_get?] at h
      by_cases hii : idx' = w.record_tree.length
      · rw [if_pos hii, hii, get?_append_one, if_pos rfl] at h
        injection h with h
        rw [← h]
        simp only
        rw [alistGet_set_eq]
        simp only [List.length_append, List.length_cons, List.length_nil, List.nil_append]
        rw [hseqv]
      · rw [if_neg hii, get?_append_one, if_neg hii] at h
        have hne : di''.text ≠ now.date := by
          intro hc
          have := hinv.idx_roots idx' di'' h
          rw [hc, hroot] at this
          exact Option.noConfusion this
        rw [alistGet_set_ne _ _ _ _ hne,
          alistGet_setdefault_ne _ _ _ _ (fun hc => hne hc.symm)]
        exact hinv.seq_sync idx' di'' h
    · intro idx' di'' i dg h hc
      rw [updNth_get?] at h
      by_cases hii : idx' = w.record_tree.length
      · rw [if_pos hii, hii, get?_append_one, if_pos rfl] at h
        injection h with h
        rw [← h] at hc
        simp only [List.nil_append] at hc
        cases i with
        | zero =>
          injection hc with hc
          rw [← h, ← hc]
          refine ⟨?_, rfl, rfl, rfl⟩
          simp only [newDiagItem]
          rw [hseqv]
        | succ m => exact Option.noConfusion hc
      · rw [if_neg hii, get?_append_one, if_neg hii] at h
        exact hinv.diag_ok idx' di'' i dg h hc
    · intro idx' di'' i dg j a h hc hc2
      rw [updNth_get?] at h
      by_cases hii : idx' = w.record_tree.length
      · rw [if_pos hii, hii, get?_append_one, if_pos rfl] at h
        injection h with h
        rw [← h] at hc
        simp only [List.nil_append] at hc
        cases i with
        | zero =>
          injection hc with hc
          rw [← hc] at hc2
          simp only [newDiagItem] at hc2
          exact Option.noConfusion hc2
        | succ m => exact Option.noConfusion hc
      · rw [if_neg hii, get?_append_one, if_neg hii] at h
        exact hinv.action_ok idx' di'' i dg j a h hc hc2

theorem inv_performAction (w : MainWindow) (d0 i0 : Nat) (dg : DiagItem) (now : Now)
    (hinv : TreeInv w) (hdg : diagAt w d0 i0 = Option.some dg) :
    TreeInv (performAction w d0 i0 dg now) := by
  obtain ⟨di0, hdi0, hc0⟩ := diagAt_elim hdg
  have hdgok := hinv.diag_ok d0 di0 i0 dg hdi0 hc0
  have hnext : nextActionSeq dg = dg.children.length + 1 := by
    simp only [nextActionSeq]
    rw [hdgok.2.2.2]
    rfl
  simp only [performAction]
  refine ⟨?_, ?_, ?_, ?_, ?_, ?_⟩
  · intro d idx h
    obtain ⟨di', hdi', htext'⟩ := hinv.roots_idx d idx h
    rw [updNth_get?]
    by_cases hii : idx = d0
    · rw [if_pos hii, hii, hdi0]
      refine ⟨_, rfl, ?_⟩
      rw [hii, hdi0] at hdi'
      injection hdi' with he
      show di0.text = d
      rw [he]
      exact htext'
    · rw [if_neg hii]
      exact ⟨di', hdi', htext'⟩
  · intro idx di'' h
    rw [updNth_get?] at h
    by_cases hii : idx = d0
    · rw [if_pos hii, hii, hdi0] at h
      injection h with h
      rw [← h]
      show alistGet w.date_roots di0.text = Option.some idx
      rw [hii]
      exact hinv.idx_roots d0 di0 hdi0
    · rw [if_neg hii] at h
      exact hinv.idx_roots idx di'' h
  · intro d hsome
    exact hinv.seq_roots d hsome
  · intro idx di'' h
    rw [updNth_get?] at h
    by_cases hii : idx = d0
    · rw [if_pos hii, hii, hdi0] at h
      injection h with h
      rw [← h]
      show alistGet w.diag_seq_by_date di0.text
        = Option.some (updNth (fun _ => diagAfterAction dg now) di0.children i0).length
      rw [updNth_length]
      exact hinv.seq_sync d0 di0 hdi0
    · rw [if_neg hii] at h
      exact hinv.seq_sync idx di'' h
  · intro idx di'' i dg' h hc
    rw [updNth_get?] at h
    by_cases hii : idx = d0
    · rw [if_pos hii, hii, hdi0] at h
      injection h with h
      rw [← h] at hc
      simp only at hc
      rw [updNth_get?] at hc
      by_cases hio : i = i0
      · rw [if_pos hio, hio, hc0] at hc
        simp only [Option.map_some'] at hc
        injection hc with hc
        rw [← h, ← hc]
        refine ⟨?_, ?_, ?_, ?_⟩
        · show dg.text = _
          rw [← hio] at hdgok
          exact hdgok.1
        · exact hdgok.2.1
        · show dg.payload.title = di0.text ++ " " ++ dg.text ++ " 리포트"
          exact hdgok.2.2.1
        · show Option.some (nextActionSeq dg)
            = Option.some (dg.children ++ [actionChild dg now]).length
          rw [hnext]
          simp [List.length_append]
      · rw [if_neg hio] at hc
        have hold := hinv.diag_ok d0 di0 i dg' hdi0 hc
        rw [← h]
        exact hold
    · rw [if_neg hii] at h
      exact hinv.diag_ok idx di'' i dg' h hc
  · intro idx di'' i dg' j a h hc hc2
    rw [updNth_get?] at h
    by_cases hii : idx = d0
    · rw [if_pos hii, hii, hdi0] at h
      injection h with h
      rw [← h] at hc
      simp only at hc
      rw [updNth_get?] at hc
      by_cases hio : i = i0
      · rw [if_pos hio, hio, hc0] at hc
        simp only [Option.map_some'] at hc
        injection hc with hc
        rw [← hc] at hc2
        simp only [diagAfterAction] at hc2
        rw [get?_append_one] at hc2
        by_cases hj : j = dg.children.length
        · rw [if_pos hj] at hc2
          injection hc2 with hc2
          rw [← hc, ← hc2]
          refine ⟨?_, rfl, now.date, now.time, rfl, ?_⟩
          · show "조치" ++ toString (nextActionSeq dg) = "조치" ++ toString (j + 1)
            rw [hnext, hj]
          · show now.date ++ " " ++ dg.text ++ " - " ++ ("조치" ++ toString (nextActionSeq dg))
                ++ " 리포트"
              = now.date ++ " " ++ (diagAfterAction dg now).text ++ " - "
                ++ ("조치" ++ toString (nextActionSeq dg)) ++ " 리포트"
            rfl
        · rw [if_neg hj] at hc2
          have hold := hinv.action_ok d0 di0 i0 dg j a hdi0 hc0 hc2
          rw [← hc]
          exact hold
      · rw [if_neg hio] at hc
        have hold := hinv.action_ok d0 di0 i dg' j a hdi0 hc hc2
        exact hold
    · rw [if_neg hii] at h
      exact hinv.action_ok idx di'' i dg' j a h hc hc2

theorem inv_step (w : MainWindow) (op : Op) (hinv : TreeInv w) : TreeInv (step w op) := by
  cases op with
  | startDiag now => exact inv_startDiag w now hinv
  | runAction now =>
    simp only [step]
    cases h : createActionRecord w now with
    | error e => exact hinv
    | ok w' =>
      obtain ⟨d, i, dg, hres, hdg, hw⟩ := createActionRecord_ok_shape w now w' h
      rw [hw]
      exact inv_performAction w d i dg now hinv hdg
  | clickItem r => exact ⟨hinv.1, hinv.2, hinv.3, hinv.4, hinv.5, hinv.6⟩
  | openReport => exact hinv
  | saveReport => exact hinv

theorem inv_run (ops : List Op) : ∀ w, TreeInv w → TreeInv (run w ops) := by
  induction ops with
  | nil => intro w h; exact h
  | cons op rest ih => intro w h; exact ih (step w op) (inv_step w op h)

theorem inv_reachable (ops : List Op) : TreeInv (run initWindow ops) :=
  inv_run ops initWindow inv_init

theorem actionAt_elim {w : MainWindow} {d i j : Nat} {a : ActionItem}
    (h : actionAt w d i j = Option.some a) :
    ∃ dg, diagAt w d i = Option.some dg ∧ dg.children.get? j = Option.some a := by
  unfold actionAt at h
  cases hdg : diagAt w d i with
  | none => rw [hdg] at h; exact Option.noConfusion h
  | some dg => rw [hdg] at h; exact ⟨dg, rfl, h⟩

theorem payloadAt_diagRef_elim {w : MainWindow} {d i : Nat} {p : Payload}
    (h : payloadAt w (NodeRef.diagRef d i) = Option.some p) :
    ∃ dg, diagAt w d i = Option.some dg ∧ dg.payload = p := by
  simp only [payloadAt] at h
  cases hdg : diagAt w d i with
  | none => rw [hdg] at h; exact Option.noConfusion h
  | some dg => rw [hdg] at h; injection h with h; exact ⟨dg, rfl, h⟩

theorem payloadAt_actionRef_elim {w : MainWindow} {d i j : Nat} {p : Payload}
    (h : payloadAt w (NodeRef.actionRef d i j) = Option.some p) :
    ∃ a, actionAt w d i j = Option.some a ∧ a.payload = p := by
  simp only [payloadAt] at h
  cases ha : actionAt w d i j with
  | none => rw [ha] at h; exact Option.noConfusion h
  | some a => rw [ha] at h; injection h with h; exact ⟨a, rfl, h⟩

theorem diagAt_startDiag_frame (w : MainWindow) (now : Now) (d i : Nat) (dg : DiagItem)
    (h : diagAt w d i = Option.some dg) :
    diagAt (createDiagnosisRecord w now) d i = Option.some dg := by
  obtain ⟨di, hdi, hc⟩ := diagAt_elim h
  have hlt : i < di.children.length := get?_some_lt hc
  have hdlt : d < w.record_tree.length := get?_some_lt hdi
  simp only [createDiagnosisRecord, ensureDateRoot]
  cases hroot : alistGet w.date_roots now.date with
  | some idx =>
    dsimp only
    simp only [diagAt, dateAt]
    rw [updNth_get?]
    by_cases hii : d = idx
    · rw [if_pos hii, hii]
      rw [hii] at hdi
      rw [hdi]
      simp only [Option.map_some', Option.some_bind]
      rw [get?_append_one, if_neg (by omega)]
      exact hc
    · rw [if_neg hii]
      unfold diagAt dateAt at h
      exact h
  | none =>
    dsimp only
    simp only [diagAt, dateAt]
    rw [updNth_get?, if_neg (by omega), get?_append_one, if_neg (by omega), hdi]
    simp only [Option.some_bind]
    exact hc

theorem actionAt_startDiag_frame (w : MainWindow) (now : Now) (d i j : Nat) (a : ActionItem)
    (h : actionAt w d i j = Option.some a) :
    actionAt (createDiagnosisRecord w now) d i j = Option.some a := by
  obtain ⟨dg, hdg, hc⟩ := actionAt_elim h
  unfold actionAt
  rw [diagAt_startDiag_frame w now d i dg hdg]
  simp only [Option.some_bind]
  exact hc

/-! ### Claim C3: scope resolution -/

/-- C3: on every reachable state, resolving the diagnosis scope of the
current selection returns the selected item itself when it is a diagnosis
record, the selected item's parent diagnosis when it is an action record,
and `none` when nothing is selected or a bare date item is selected. -/
theorem c3_resolve_scope (ops : List Op) :
    ((run initWindow ops).current = Option.none →
        resolveSelectedDiagnosis (run initWindow ops) = Option.none) ∧
    (∀ d, (run initWindow ops).current = Option.some (NodeRef.dateRef d) →
        resolveSelectedDiagnosis (run initWindow ops) = Option.none) ∧
    (∀ d i dg, (run initWindow ops).current = Option.some (NodeRef.diagRef d i) →
        diagAt (run initWindow ops) d i = Option.some dg →
        resolveSelectedDiagnosis (run initWindow ops)
          = Option.some (NodeRef.diagRef d i)) ∧
    (∀ d i j a, (run initWindow ops).current = Option.some (NodeRef.actionRef d i j) →
        actionAt (run initWindow ops) d i j = Option.some a →
        resolveSelectedDiagnosis (run initWindow ops)
          = Option.some (NodeRef.diagRef d i)) := by
  have hinv := inv_reachable ops
  refine ⟨?_, ?_, ?_, ?_⟩
  · intro h
    simp [resolveSelectedDiagnosis, h]
  · intro d h
    simp [resolveSelectedDiagnosis, h, payloadAt]
  · intro d i dg h hdg
    obtain ⟨di, hdi, hc⟩ := diagAt_elim hdg
    have hkind : dg.payload.kind = Kind.diagnosis :=
      (hinv.diag_ok d di i dg hdi hc).2.1
    simp [resolveSelectedDiagnosis, h, payloadAt, hdg, hkind]
  · intro d i j a h ha
    obtain ⟨dg, hdg, hc⟩ := actionAt_elim ha
    obtain ⟨di, hdi, hc0⟩ := diagAt_elim hdg
    have hkind : a.payload.kind = Kind.action :=
      (hinv.action_ok d di i dg j a hdi hc0 hc).2.1
    simp [resolveSelectedDiagnosis, h, payloadAt, ha, hkind, parentOf]

/-! ### Claim C10: the action counter equals the number of action children -/

/-- C10: on every reachable state, each diagnosis payload's `"action_seq"`
counter equals the number of action children attached under that diagnosis
item. -/
theorem c10_counter_equals_children (ops : List Op) (d i : Nat) (dg : DiagItem)
    (h : diagAt (run initWindow ops) d i = Option.some dg) :
    dg.payload.action_seq = Option.some dg.children.length := by
  obtain ⟨di, hdi, hc⟩ := diagAt_elim h
  exact ((inv_reachable ops).diag_ok d di i dg hdi hc).2.2.2

/-- The diagnosis item created by the first session event, after one action
has been attached to it by the second. -/
def cdg2 : DiagItem := diagAfterAction (newDiagItem exNow1 1) exNow2

/-- Witness for C10 at a concrete session. -/
theorem c10_counter_equals_children_witness :
    cdg2.payload.action_seq = Option.some cdg2.children.length :=
  c10_counter_equals_children [Op.startDiag exNow1, Op.runAction exNow2] 0 0 cdg2
    (by decide)

/-- The action item attached by the second session event. -/
def ca2 : ActionItem := actionChild (newDiagItem exNow1 1) exNow2

/-- Witness for C3 at a concrete session in which the new action item is the
current selection: scope resolution returns its parent diagnosis. -/
theorem c3_resolve_scope_witness :
    resolveSelectedDiagnosis (run initWindow [Op.startDiag exNow1, Op.runAction exNow2])
      = Option.some (NodeRef.diagRef 0 0) :=
  (c3_resolve_scope [Op.startDiag exNow1, Op.runAction exNow2]).2.2.2 0 0 0 ca2
    (by decide) (by decide)

/-! ### Claims C4 and C5: generated titles -/

/-- C4 amended: a successful `create action` titles the new record
`"{date} {display} - 조치{seq} 리포트"` where `display` is the resolved
diagnosis tree item's display text (`diag_item.text(0)`), not the
diagnosis's stored payload title, `date` is the action's creation date and
`seq` the assigned action sequence number. -/
theorem c4_action_title (w : MainWindow) (now : Now) (d i : Nat) (dg : DiagItem)
    (hres : resolveSelectedDiagnosis w = Option.some (NodeRef.diagRef d i))
    (hdg : diagAt w d i = Option.some dg) :
    createActionRecord w now = Except.ok (performAction w d i dg now) ∧
    actionAt (performAction w d i dg now) d i dg.children.length
      = Option.some (actionChild dg now) ∧
    (actionChild dg now).payload.title
      = now.date ++ " " ++ dg.text ++ " - "
        ++ ("조치" ++ toString (nextActionSeq dg)) ++ " 리포트" := by
  refine ⟨?_, ?_, rfl⟩
  · simp [createActionRecord, hres, hdg]
  · unfold actionAt
    rw [diagAt_performAction w d i dg now hdg d i, if_pos ⟨rfl, rfl⟩]
    simp only [Option.some_bind, diagAfterAction]
    rw [get?_append_one, if_pos rfl]

/-- Witness for C4 at a concrete session. -/
theorem c4_action_title_witness :
    createActionRecord (run initWindow [Op.startDiag exNow1]) exNow2
      = Except.ok (performAction (run initWindow [Op.startDiag exNow1]) 0 0
          (newDiagItem exNow1 1) exNow2) ∧
    actionAt (performAction (run initWindow [Op.startDiag exNow1]) 0 0
          (newDiagItem exNow1 1) exNow2) 0 0 (newDiagItem exNow1 1).children.length
      = Option.some (actionChild (newDiagItem exNow1 1) exNow2) ∧
    (actionChild (newDiagItem exNow1 1) exNow2).payload.title
      = exNow2.date ++ " " ++ (newDiagItem exNow1 1).text ++ " - "
        ++ ("조치" ++ toString (nextActionSeq (newDiagItem exNow1 1))) ++ " 리포트" :=
  c4_action_title (run initWindow [Op.startDiag exNow1]) exNow2 0 0
    (newDiagItem exNow1 1) (by decide) (by decide)

/-- C4 as stated is false on the code: the diagnosis's stored payload title
is `"2024-01-01 진단1 리포트"`, yet the action created under it is not titled
`"{date} {storedTitle} - 조치1 리포트"`. -/
theorem c4_counterexample :
    ((diagAt (run initWindow [Op.startDiag exNow1]) 0 0).map (fun dg => dg.payload.title)
        = Option.some "2024-01-01 진단1 리포트") ∧
    ((actionAt (run initWindow [Op.startDiag exNow1, Op.runAction exNow2]) 0 0 0).map
        (fun a => a.payload.title)
      ≠ Option.some ("2024-01-02 " ++ "2024-01-01 진단1 리포트" ++ " - 조치1 리포트")) :=
  ⟨by decide, by decide⟩

/-- C5 amended: on every reachable state, the `i`-th diagnosis under a date
root is named `진단{i}` and titled `"{date} 진단{i} 리포트"` with the root's
date; the `j`-th action under it is named `조치{j}` and titled with the
diagnosis's display name, `"{ds} 진단{i} - 조치{j} 리포트"`, where `ds` is the
date component of the action's own creation timestamp (which need not be the
diagnosis's date). -/
theorem c5_generated_titles (ops : List Op) (d i j : Nat) (di : DateItem)
    (dg : DiagItem) (a : ActionItem)
    (hdi : dateAt (run initWindow ops) d = Option.some di)
    (hdg : di.children.get? i = Option.some dg)
    (ha : dg.children.get? j = Option.some a) :
    dg.text = "진단" ++ toString (i + 1) ∧
    dg.payload.title = di.text ++ " " ++ dg.text ++ " 리포트" ∧
    a.text = "조치" ++ toString (j + 1) ∧
    (∃ ds ts, a.payload.created_at_full = ds ++ " " ++ ts ∧
        a.payload.title = ds ++ " " ++ dg.text ++ " - " ++ a.text ++ " 리포트") := by
  have hinv := inv_reachable ops
  have h1 := hinv.diag_ok d di i dg hdi hdg
  have h2 := hinv.action_ok d di i dg j a hdi hdg ha
  exact ⟨h1.1, h1.2.2.1, h2.1, h2.2.2⟩

/-- The date item of the concrete two-event session. -/
def cdate2 : DateItem := { text := "2024-01-01", children := [cdg2] }

/-- Witness for C5 at a concrete session. -/
theorem c5_generated_titles_witness :
    cdg2.text = "진단" ++ toString (0 + 1) ∧
    cdg2.payload.title = cdate2.text ++ " " ++ cdg2.text ++ " 리포트" ∧
    ca2.text = "조치" ++ toString (0 + 1) ∧
    (∃ ds ts, ca2.payload.created_at_full = ds ++ " " ++ ts ∧
        ca2.payload.title = ds ++ " " ++ cdg2.text ++ " - " ++ ca2.text ++ " 리포트") :=
  c5_generated_titles [Op.startDiag exNow1, Op.runAction exNow2] 0 0 0 cdate2 cdg2 ca2
    (by decide) (by decide) (by decide)

/-- C5 as stated is false in one detail: the action's title begins with the
action's own creation date, not the diagnosis's date `d`.  In a session that
creates the diagnosis on 2024-01-01 and the action on 2024-01-02, the action
title is not `"{d} 진단1 - 조치1 리포트"` with `d` the diagnosis's date. -/
theorem c5_counterexample :
    ((actionAt (run initWindow [Op.startDiag exNow1, Op.runAction exNow2]) 0 0 0).map
        (fun a => a.payload.title) = Option.some "2024-01-02 진단1 - 조치1 리포트") ∧
    ((actionAt (run initWindow [Op.startDiag exNow1, Op.runAction exNow2]) 0 0 0).map
        (fun a => a.payload.title) ≠ Option.some "2024-01-01 진단1 - 조치1 리포트") :=
  ⟨by decide, by decide⟩

/-! ### Claim C6: export layout -/

/-- Spec side, following the spec's words: one line per table row, formatted
as a dash bullet of three columns separated by vertical bars, where rows with
fewer than 3 columns are right-padded with empty strings and rows with more
than 3 columns are truncated to the first 3. -/
def specRenderRow (row : List String) : String :=
  let cols := (row ++ List.replicate (3 - row.length) "").take 3
  "- " ++ cols.getD 0 "" ++ " | " ++ cols.getD 1 "" ++ " | " ++ cols.getD 2 ""

/-- Spec side: the exact line layout of the exported report: a title line, a
kind line, a creation-timestamp line, a blank line, the summary header, the
summary text, a blank line, the table header, then the row lines. -/
def specRenderLines (p : Payload) : List String :=
  ["제목: " ++ p.title,
   "종류: " ++ Kind.str p.kind,
   "생성시각: " ++ p.created_at_full,
   "",
   "[요약]",
   p.text,
   "",
   "[표 데이터]"] ++ p.table.map specRenderRow

theorem specRenderRow_eq_tableLine (row : List String) :
    specRenderRow row = tableLine row := by
  match row with
  | [] => rfl
  | [a] => rfl
  | [a, b] => rfl
  | a :: b :: c :: rest =>
    have h0 : 3 - (a :: b :: c :: rest).length = 0 := by
      simp only [List.length_cons]
      omega
    simp only [specRenderRow, tableLine, h0, List.replicate, List.append_nil, List.take,
      List.getD]
    rfl

/-- C6: the bytes written by the export are exactly the specified lines
joined with single newline characters, UTF-8 encoded; the default filename
offered is the payload title with spaces replaced by underscores plus a
`.txt` extension. -/
theorem c6_export_layout (p : Payload) :
    savedBytes p = String.toUTF8 (String.intercalate "\n" (specRenderLines p)) ∧
    defaultName p = p.title.replace " " "_" ++ ".txt" := by
  refine ⟨?_, rfl⟩
  unfold savedBytes savedText saveBody specRenderLines
  have hmap : p.table.map specRenderRow = p.table.map tableLine := by
    have hf : specRenderRow = tableLine := funext specRenderRow_eq_tableLine
    rw [hf]
  rw [hmap]

/-! ### Claim C7: create action with no resolvable diagnosis -/

/-- C7: when nothing is selected, or a bare date item is selected,
`create_action_record` fails with the no-selection warning and the whole
window state (tree, dictionaries, selection) is unchanged. -/
theorem c7_no_selection (w : MainWindow) (now : Now)
    (h : w.current = Option.none ∨ ∃ d, w.current = Option.some (NodeRef.dateRef d)) :
    createActionRecord w now = Except.error ActionError.NoSelectionError ∧
    step w (Op.runAction now) = w := by
  have hres : resolveSelectedDiagnosis w = Option.none := by
    cases h with
    | inl h0 => simp [resolveSelectedDiagnosis, h0]
    | inr h1 =>
      obtain ⟨d, hd⟩ := h1
      simp [resolveSelectedDiagnosis, hd, payloadAt]
  constructor
  · simp [createActionRecord, hres]
  · simp [step, createActionRecord, hres]

/-- Witness for C7: on the initial state nothing is selected. -/
theorem c7_no_selection_witness :
    createActionRecord initWindow exNow1 = Except.error ActionError.NoSelectionError ∧
    step initWindow (Op.runAction exNow1) = initWindow :=
  c7_no_selection initWindow exNow1 (Or.inl rfl)

/-! ### Claim C8: three-column rows are preserved verbatim -/

/-- C8: a table row with exactly 3 columns appears in the rendered output as
the line `"- a | b | c"` with the three values verbatim, at the position
corresponding to the row's position (row `i` is output line `8 + i`), so row
order is preserved. -/
theorem c8_three_column_rows (p : Payload) (i : Nat) (a b c : String)
    (h : p.table.get? i = Option.some [a, b, c]) :
    (p.table.map tableLine).get? i
      = Option.some ("- " ++ a ++ " | " ++ b ++ " | " ++ c) ∧
    (saveBody p).get? (8 + i)
      = Option.some ("- " ++ a ++ " | " ++ b ++ " | " ++ c) := by
  have h2 : (p.table.map tableLine).get? i
      = Option.some ("- " ++ a ++ " | " ++ b ++ " | " ++ c) := by
    rw [map_get?, h]
    rfl
  refine ⟨h2, ?_⟩
  unfold saveBody
  exact (get?_append_right_add _ _ i).trans h2

/-- Witness for C8 on the dummy diagnosis table. -/
theorem c8_three_column_rows_witness :
    ((newDiagItem exNow1 1).payload.table.map tableLine).get? 0
      = Option.some ("- " ++ "대상" ++ " | " ++ "서버-A" ++ " | " ++ "더미") ∧
    (saveBody (newDiagItem exNow1 1).payload).get? (8 + 0)
      = Option.some ("- " ++ "대상" ++ " | " ++ "서버-A" ++ " | " ++ "더미") :=
  c8_three_column_rows (newDiagItem exNow1 1).payload 0 "대상" "서버-A" "더미" (by decide)

/-! ### Claim C9: payloads are immutable except the resolved action counter -/

/-- C9: once a payload exists, one event either leaves it untouched, or — only
for a `create action` event whose scope resolution returns exactly that item —
replaces it by the same payload with its `"action_seq"` counter incremented by
one.  Clicks, report opening and export never write to any payload. -/
theorem c9_payload_frame (w : MainWindow) (op : Op) (ref : NodeRef) (p : Payload)
    (hp : payloadAt w ref = Option.some p) :
    payloadAt (step w op) ref = Option.some p ∨
    (∃ now, op = Op.runAction now ∧
        resolveSelectedDiagnosis w = Option.some ref ∧
        payloadAt (step w op) ref
          = Option.some { p with action_seq := Option.some (p.action_seq.getD 0 + 1) }) := by
  cases op with
  | startDiag now =>
    left
    cases ref with
    | dateRef d => exact Option.noConfusion hp
    | diagRef d i =>
      obtain ⟨dg, hdg, hpp⟩ := payloadAt_diagRef_elim hp
      simp only [step, payloadAt]
      rw [diagAt_startDiag_frame w now d i dg hdg]
      rw [← hpp]
      rfl
    | actionRef d i j =>
      obtain ⟨a, ha, hpp⟩ := payloadAt_actionRef_elim hp
      simp only [step, payloadAt]
      rw [actionAt_startDiag_frame w now d i j a ha]
      rw [← hpp]
      rfl
  | runAction now =>
    simp only [step]
    cases hact : createActionRecord w now with
    | error e => exact Or.inl hp
    | ok w' =>
      obtain ⟨d0, i0, dg0, hres, hdg0, hw⟩ := createActionRecord_ok_shape w now w' hact
      rw [hw]
      cases ref with
      | dateRef d => exact Option.noConfusion hp
      | diagRef d i =>
        obtain ⟨dg, hdg, hpp⟩ := payloadAt_diagRef_elim hp
        by_cases hsame : d = d0 ∧ i = i0
        · right
          refine ⟨now, rfl, ?_, ?_⟩
          · rw [hres, hsame.1, hsame.2]
          · simp only [payloadAt]
            rw [diagAt_performAction w d0 i0 dg0 now hdg0 d i, if_pos hsame]
            have hdgeq : dg = dg0 := by
              rw [hsame.1, hsame.2, hdg0] at hdg
              injection hdg with hdg
              exact hdg.symm
            rw [← hpp, hdgeq]
            rfl
        · left
          simp only [payloadAt]
          rw [diagAt_performAction w d0 i0 dg0 now hdg0 d i, if_neg hsame, hdg, ← hpp]
          rfl
      | actionRef d i j =>
        left
        obtain ⟨a, ha, hpp⟩ := payloadAt_actionRef_elim hp
        obtain ⟨dg, hdg, hcj⟩ := actionAt_elim ha
        have hjlt : j < dg.children.length := get?_some_lt hcj
        simp only [payloadAt, actionAt]
        rw [diagAt_performAction w d0 i0 dg0 now hdg0 d i]
        by_cases hsame : d = d0 ∧ i = i0
        · rw [if_pos hsame]
          have hdgeq : dg = dg0 := by
            rw [hsame.1, hsame.2, hdg0] at hdg
            injection hdg with hdg
            exact hdg.symm
          simp only [Option.some_bind, diagAfterAction]
          rw [get?_append_one, if_neg (by rw [← hdgeq]; omega), ← hdgeq, hcj, ← hpp]
          rfl
        · rw [if_neg hsame, hdg]
          simp only [Option.some_bind]
          rw [hcj, ← hpp]
          rfl
  | clickItem r => exact Or.inl hp
  | openReport => exact Or.inl hp
  | saveReport => exact Or.inl hp

/-- Witness for C9 at a concrete input: the `create action` event increments
the resolved diagnosis payload's counter by exactly one. -/
theorem c9_payload_frame_witness :
    payloadAt (step (run initWindow [Op.startDiag exNow1]) (Op.runAction exNow2))
        (NodeRef.diagRef 0 0)
      = Option.some (newDiagItem exNow1 1).payload ∨
    (∃ now, Op.runAction exNow2 = Op.runAction now ∧
        resolveSelectedDiagnosis (run initWindow [Op.startDiag exNow1])
          = Option.some (NodeRef.diagRef 0 0) ∧
        payloadAt (step (run initWindow [Op.startDiag exNow1]) (Op.runAction exNow2))
            (NodeRef.diagRef 0 0)
          = Option.some { (newDiagItem exNow1 1).payload with
              action_seq :=
                Option.some ((newDiagItem exNow1 1).payload.action_seq.getD 0 + 1) }) :=
  c9_payload_frame (run initWindow [Op.startDiag exNow1]) (Op.runAction exNow2)
    (NodeRef.diagRef 0 0) (newDiagItem exNow1 1).payload (by decide)

